import Mathlib

/-!
Shallow embedding of the clawtrade on-chain ingestion pipeline
(TradingService, BlockchainService, PriceService, WebSocketService,
rate-limit middleware) and proofs about the specified properties.

Conventions of the embedding:
* blockchain block numbers and millisecond timestamps are `Int`
  (JS `bigint` / `number` used as integers);
* token base-unit amounts are `Nat` (`uint256` log values);
* USD money amounts and prices are `ℚ` (JS `number` arithmetic modelled
  as exact rational arithmetic);
* fallible external calls (database create, token-info RPC) are modelled
  by environment functions; a thrown exception is `Except.error`.
-/

namespace Clawtrade

/-- Token metadata returned by `BlockchainService.getTokenInfo`. -/
structure TokenInfo where
  name : String
  symbol : String
  decimals : Nat
deriving Repr, DecidableEq

/-- A reconstructed swap candidate (the `SwapEvent` interface of
`blockchain.service.ts`): `tokenOut`/`amountOut` is the leg the agent sent,
`tokenIn`/`amountIn` the leg the agent received. -/
structure SwapEvent where
  txHash : String
  blockNumber : Int
  timestamp : Int
  tokenIn : String
  tokenOut : String
  amountIn : Nat
  amountOut : Nat
deriving Repr, DecidableEq

/-- A persisted Trade row, with the fields `TradingService.indexAgentTrades`
writes through `prisma.trade.create`. -/
structure TradeRow where
  agentId : String
  txHash : String
  blockNumber : Int
  timestamp : Int
  dex : String
  tokenInAddress : String
  tokenInSymbol : String
  tokenInDecimals : Nat
  amountIn : Nat
  tokenOutAddress : String
  tokenOutSymbol : String
  tokenOutDecimals : Nat
  amountOut : Nat
  valueUsd : ℚ
  profitLossUsd : ℚ
deriving Repr, DecidableEq

/-- Environment of one indexing pass: the token-info RPC (`null` on failure),
the resolved USD unit price of a token (the Price Resolver, which never
throws), and whether `prisma.trade.create` throws for a given row's hash. -/
structure IndexEnv where
  tokenInfoOf : String → Option TokenInfo
  priceOf : String → ℚ
  persistFails : String → Bool

/-- `PriceService.calculateUsdValue`: `Number(amount) / 10 ** decimals * price`. -/
def calculateUsdValue (env : IndexEnv) (token : String) (amount : Nat)
    (decimals : Nat) : ℚ :=
  ((amount : ℚ) / 10 ^ decimals) * env.priceOf token

/-- The Trade row built for one swap candidate (lines 413-439 of
`TradingService.indexAgentTrades`).  Note the deliberate relabelling in the
source: the row's `tokenIn` fields hold `swap.tokenOut` (the sent leg) and
the row's `tokenOut` fields hold `swap.tokenIn` (the received leg). -/
def mkTradeRow (env : IndexEnv) (agentId : String) (swap : SwapEvent)
    (infoIn infoOut : TokenInfo) : TradeRow :=
  let valueInUsd := calculateUsdValue env swap.tokenIn swap.amountIn infoIn.decimals
  let valueOutUsd := calculateUsdValue env swap.tokenOut swap.amountOut infoOut.decimals
  { agentId := agentId
    txHash := swap.txHash
    blockNumber := swap.blockNumber
    timestamp := swap.timestamp
    dex := "UNISWAP_V2"
    tokenInAddress := swap.tokenOut
    tokenInSymbol := infoOut.symbol
    tokenInDecimals := infoOut.decimals
    amountIn := swap.amountOut
    tokenOutAddress := swap.tokenIn
    tokenOutSymbol := infoIn.symbol
    tokenOutDecimals := infoIn.decimals
    amountOut := swap.amountIn
    valueUsd := valueInUsd
    profitLossUsd := valueOutUsd - valueInUsd }

/-- `prisma.trade.findUnique({ where: { txHash } })`: lookup by
transaction hash alone, over the whole table (all agents). -/
def findTradeByTxHash (db : List TradeRow) (h : String) : Option TradeRow :=
  db.find? (fun r => r.txHash == h)

/-- The candidate loop of `TradingService.indexAgentTrades` (lines 392-470):
skip when a Trade with the hash already exists, skip when either token-info
lookup returns null, otherwise persist the built row.  A throwing
`prisma.trade.create` propagates out of the loop (there is no per-candidate
try/catch) and the outer catch rethrows, aborting the pass. -/
def indexSwaps (env : IndexEnv) (agentId : String) :
    List SwapEvent → List TradeRow → Nat → Except Unit (List TradeRow × Nat)
  | [], db, n => .ok (db, n)
  | swap :: rest, db, n =>
    match findTradeByTxHash db swap.txHash with
    | some _ => indexSwaps env agentId rest db n
    | none =>
      match env.tokenInfoOf swap.tokenIn, env.tokenInfoOf swap.tokenOut with
      | some infoIn, some infoOut =>
        if env.persistFails swap.txHash then .error ()
        else
          indexSwaps env agentId rest
            (db ++ [mkTradeRow env agentId swap infoIn infoOut]) (n + 1)
      | _, _ => indexSwaps env agentId rest db n

/-- One indexing pass over a list of swap candidates, starting from the
current table contents; returns the new table and the indexed count. -/
def indexAgentTrades (env : IndexEnv) (agentId : String)
    (swaps : List SwapEvent) (db : List TradeRow) :
    Except Unit (List TradeRow × Nat) :=
  indexSwaps env agentId swaps db 0

/-- Aggregate fields of an Agent written by `TradingService.updateAgentStats`. -/
structure AgentStats where
  totalVolumeUsd : ℚ
  totalProfitUsd : ℚ
  winRate : ℚ
  totalTrades : Nat
deriving Repr, DecidableEq

/-- `TradingService.updateAgentStats` (lines 487-524): full recomputation over
the agent's trades; returns the previous aggregates unchanged when the agent
has no trades (the early return). -/
def updateAgentStats (db : List TradeRow) (agentId : String)
    (prev : AgentStats) : AgentStats :=
  let trades := db.filter (fun r => r.agentId == agentId)
  if trades.length = 0 then prev
  else
    let totalVolume := (trades.map (fun t => t.valueUsd)).sum
    let totalProfit := (trades.map (fun t => t.profitLossUsd)).sum
    let profitable := (trades.filter (fun t => decide (0 < t.profitLossUsd))).length
    { totalVolumeUsd := totalVolume
      totalProfitUsd := totalProfit
      winRate := ((profitable : ℚ) / (trades.length : ℚ)) * 100
      totalTrades := trades.length }

/-! ### Swap Reconstructor (`BlockchainService.getSwapEventsForAddress`) -/

/-- One ERC-20 Transfer log.  A log's block number and timestamp are those of
its containing transaction, supplied by the chain environment below, so a log
carries only the event arguments and its transaction hash; list order is
chain order (ascending block, then log index). -/
structure TransferLog where
  txHash : String
  fromAddr : String
  toAddr : String
  tokenAddress : String
  value : Nat
deriving Repr, DecidableEq

/-- Read-only chain lookups used by the Reconstructor: the block number of a
transaction (`getTransactionReceipt(...).blockNumber`) and a block's
timestamp (`getBlock(...).timestamp`). -/
structure ChainEnv where
  receiptBlock : String → Int
  blockTimestamp : Int → Int

/-- Whether a log's containing block lies in the queried inclusive range
(the `fromBlock`/`toBlock` filter of `getLogs`). -/
def logInRange (cenv : ChainEnv) (fromB toB : Int) (t : TransferLog) : Bool :=
  decide (fromB ≤ cenv.receiptBlock t.txHash) && decide (cenv.receiptBlock t.txHash ≤ toB)

/-- The `getLogs` query with `args: { from: address }`. -/
def getLogsFrom (chain : List TransferLog) (cenv : ChainEnv) (addr : String)
    (fromB toB : Int) : List TransferLog :=
  chain.filter (fun t => t.fromAddr == addr && logInRange cenv fromB toB t)

/-- The `getLogs` query with `args: { to: address }`. -/
def getLogsTo (chain : List TransferLog) (cenv : ChainEnv) (addr : String)
    (fromB toB : Int) : List TransferLog :=
  chain.filter (fun t => t.toAddr == addr && logInRange cenv fromB toB t)

/-- `allTransfers = [...transfersOut, ...transfersIn]`. -/
def allTransfersFor (chain : List TransferLog) (cenv : ChainEnv) (addr : String)
    (fromB toB : Int) : List TransferLog :=
  getLogsFrom chain cenv addr fromB toB ++ getLogsTo chain cenv addr fromB toB

/-- Append a key unless already present (a JS `Map` keeps insertion order,
so the group keys are the transaction hashes in first-occurrence order). -/
def insertKey (ks : List String) (k : String) : List String :=
  if ks.contains k then ks else ks ++ [k]

/-- The distinct transaction hashes of a transfer list, in first-occurrence
order (the iteration order of `txGroups`). -/
def txKeys (ts : List TransferLog) : List String :=
  ts.foldl (fun ks t => insertKey ks t.txHash) []

/-- `BlockchainService.parseSwapFromTransfers` (lines 87-132): partition the
grouped transfers by whether the agent is sender or recipient; when both
partitions are non-empty, the first outbound transfer is the sent leg and the
last inbound transfer the received leg. -/
def parseSwapFromTransfers (cenv : ChainEnv) (txHash : String)
    (transfers : List TransferLog) (agentAddress : String) : Option SwapEvent :=
  match (transfers.filter (fun t => t.fromAddr == agentAddress)).head?,
      (transfers.filter (fun t => t.toAddr == agentAddress)).getLast? with
  | some o, some i =>
    some { txHash := txHash
           blockNumber := cenv.receiptBlock txHash
           timestamp := cenv.blockTimestamp (cenv.receiptBlock txHash)
           tokenIn := i.tokenAddress
           tokenOut := o.tokenAddress
           amountIn := i.value
           amountOut := o.value }
  | _, _ => none

/-- Insert a swap into a list sorted by ascending block number (the JS
`sort((a, b) => Number(a.blockNumber - b.blockNumber))`). -/
def insertByBlock (s : SwapEvent) : List SwapEvent → List SwapEvent
  | [] => [s]
  | x :: xs =>
    if s.blockNumber ≤ x.blockNumber then s :: x :: xs else x :: insertByBlock s xs

/-- Sort swap candidates by ascending block number. -/
def sortByBlock (l : List SwapEvent) : List SwapEvent :=
  l.foldr insertByBlock []

/-- The candidate produced for one grouped transaction: parse the group when
it holds at least two transfers, else nothing. -/
def swapCandidate (cenv : ChainEnv) (addr : String) (all : List TransferLog)
    (h : String) : Option SwapEvent :=
  if 2 ≤ (all.filter (fun t => t.txHash == h)).length then
    parseSwapFromTransfers cenv h (all.filter (fun t => t.txHash == h)) addr
  else none

/-- `BlockchainService.getSwapEventsForAddress` (lines 27-82): query both
transfer directions, group by transaction hash, parse each group with at
least two transfers, and sort the candidates by block number. -/
def getSwapEventsForAddress (chain : List TransferLog) (cenv : ChainEnv)
    (addr : String) (fromB toB : Int) : List SwapEvent :=
  let all := allTransfersFor chain cenv addr fromB toB
  sortByBlock ((txKeys all).filterMap (swapCandidate cenv addr all))

/-! ### The per-agent sweep and the derived watermark -/

/-- Combine the maxima of two block lists. -/
def combineMax : Option Int → Option Int → Option Int
  | none, m => m
  | some a, none => some a
  | some a, some b => some (max a b)

/-- Maximum of a list of block numbers, `none` when the list is empty. -/
def maxBlockAux : List Int → Option Int
  | [] => none
  | x :: xs =>
    match maxBlockAux xs with
    | none => some x
    | some m => some (max x m)

/-- The block number of the agent's most recent trade
(`prisma.trade.findFirst(... orderBy blockNumber desc)`): the maximum block
number over the agent's persisted trades. -/
def lastTradeBlock (db : List TradeRow) (agentId : String) : Option Int :=
  maxBlockAux ((db.filter (fun r => r.agentId == agentId)).map (fun r => r.blockNumber))

/-- `fromBlock = lastTrade ? lastTrade.blockNumber + 1 : currentBlock - 10000`. -/
def sweepFromBlock (db : List TradeRow) (agentId : String)
    (currentBlock : Int) : Int :=
  match lastTradeBlock db agentId with
  | some b => b + 1
  | none => currentBlock - 10000

/-- The derived watermark of the spec: the maximum block number over the
agent's persisted trades, or the fixed 10000-block lookback when none exist. -/
def derivedWatermark (db : List TradeRow) (agentId : String)
    (currentBlock : Int) : Int :=
  (lastTradeBlock db agentId).getD (currentBlock - 10000)

/-- One sweep of `TradingService.indexAgentTrades` for one agent: derive the
scan window from the persisted trades, reconstruct the swap candidates, then
run the candidate loop. -/
def runSweep (env : IndexEnv) (cenv : ChainEnv) (chain : List TransferLog)
    (db : List TradeRow) (agentId wallet : String) (currentBlock : Int) :
    Except Unit (List TradeRow × Nat) :=
  let fromB := sweepFromBlock db agentId currentBlock
  let swaps := getSwapEventsForAddress chain cenv wallet fromB currentBlock
  indexAgentTrades env agentId swaps db

/-! ### Price Resolver (`PriceService`) -/

/-- `BASE_TOKENS.WETH` from `config/blockchain.ts`. -/
def WETH : String := "0x4200000000000000000000000000000000000006"

/-- `BASE_TOKENS.USDC` from `config/blockchain.ts`. -/
def USDC : String := "0x833589fCD6eDb6E08f4c7C32D4f71b54bdA02913"

/-- `BASE_TOKENS.DAI` from `config/blockchain.ts`. -/
def DAI : String := "0x50c5725949A6F0c72E6C4a641F24049A917DB0Cb"

/-- `BASE_TOKENS.USDT` from `config/blockchain.ts`. -/
def USDT : String := "0xfde4C96c8593536E31F229EA8f37b2ADa2699bb2"

/-- `CACHE_TTL = 5 * 60 * 1000` milliseconds. -/
def CACHE_TTL : Int := 5 * 60 * 1000

/-- JS `String.prototype.toLowerCase()` on the ASCII strings used as
addresses: lowercase every character. -/
def lowerString (s : String) : String :=
  ⟨s.data.map Char.toLower⟩

/-- One in-memory price cache entry. -/
structure CacheEntry where
  price : ℚ
  timestamp : Int
deriving Repr, DecidableEq

/-- The process-local `priceCache` map, keyed by lowercased address. -/
abbrev PriceCache : Type := List (String × CacheEntry)

/-- `Map.get`. -/
def cacheGet (c : PriceCache) (k : String) : Option CacheEntry :=
  (c.find? (fun p => p.1 == k)).map (fun p => p.2)

/-- `Map.set`: replace any entry under the key, else add one. -/
def cacheSet (c : PriceCache) (k : String) (e : CacheEntry) : PriceCache :=
  (c.filter (fun p => !(p.1 == k))) ++ [(k, e)]

/-- `PriceService.getWethPrice`: the CoinGecko spot feed when reachable and
well-formed (`some`), else the hardcoded 2500 fallback; `data.ethereum?.usd
|| 2500` also replaces a (falsy) 0 by 2500, and a thrown fetch error is
caught inside the method. -/
def getWethPrice (feed : Option ℚ) : ℚ :=
  match feed with
  | some q => if q = 0 then 2500 else q
  | none => 2500

/-- `PriceService.getPriceFromUniswap` (lines 46-76): WETH resolves via the
spot feed, the three known stablecoins short-circuit to 1.0, and every other
address yields 0 (price not found); any thrown error is caught and yields 0. -/
def getPriceFromUniswap (feed : Option ℚ) (tokenAddress : String) : ℚ :=
  let wethPriceUsd := getWethPrice feed
  if lowerString tokenAddress == lowerString WETH then wethPriceUsd
  else if lowerString tokenAddress == lowerString USDC
      || lowerString tokenAddress == lowerString DAI
      || lowerString tokenAddress == lowerString USDT then 1
  else 0

/-- `PriceService.getFallbackPrice` (lines 103-122). -/
def getFallbackPrice (tokenAddress : String) : ℚ :=
  let addr := lowerString tokenAddress
  if addr == lowerString USDC || addr == lowerString DAI
      || addr == lowerString USDT then 1
  else if addr == lowerString WETH then 2500
  else 0

/-- The cache-miss path of `getTokenPriceUsd`: resolve via the pool lookup,
then the fallback table, caching only a strictly positive result. -/
def resolvePrice (cache : PriceCache) (now : Int) (feed : Option ℚ)
    (tokenAddress : String) : ℚ × PriceCache :=
  let fromPool := getPriceFromUniswap feed tokenAddress
  let price := if fromPool = 0 then getFallbackPrice tokenAddress else fromPool
  if 0 < price then (price, cacheSet cache (lowerString tokenAddress) ⟨price, now⟩)
  else (price, cache)

/-- `PriceService.getTokenPriceUsd` (lines 18-41): an unexpired cache entry
is returned as-is; otherwise resolve via the pool lookup, then the fallback
table, caching only a strictly positive result.  The function is total: every
throw-site of the source sits under a catch that converts it to a value, so
no input raises. -/
def getTokenPriceUsd (cache : PriceCache) (now : Int) (feed : Option ℚ)
    (tokenAddress : String) : ℚ × PriceCache :=
  match cacheGet cache (lowerString tokenAddress) with
  | some cached =>
    if now - cached.timestamp < CACHE_TTL then (cached.price, cache)
    else resolvePrice cache now feed tokenAddress
  | none => resolvePrice cache now feed tokenAddress

/-! ### Event Bus (`WebSocketService`) -/

/-- The routing-relevant part of a broadcast envelope: the event name and the
payload's optional embedded `agentId`. -/
structure WsPayload where
  event : String
  dataAgentId : Option String
deriving Repr, DecidableEq

/-- One connected real-time client: which backend instance its socket is on
and which agent authenticated it. -/
structure WsClient where
  clientId : String
  instanceId : String
  agentId : String
deriving Repr, DecidableEq

/-- The rooms every authenticated socket joins at connection time
(`socket.join` in the connection handler): its own agent room and the global
leaderboard room. -/
def clientRooms (c : WsClient) : List String :=
  ["agent:" ++ c.agentId, "leaderboard"]

/-- JS truthiness of `payload.data.agentId` (a missing field and the empty
string are falsy). -/
def hasAgentId (p : WsPayload) : Bool :=
  match p.dataAgentId with
  | some s => !s.isEmpty
  | none => false

/-- The routing decision of `WebSocketService.broadcastFromRedis` (lines
209-220): a payload with a truthy `agentId` goes to that agent's room, else a
`leaderboard:`-scoped event goes to the leaderboard room, else the event is
broadcast to every connected client (`none`). -/
def targetRoom (p : WsPayload) : Option String :=
  if hasAgentId p then some ("agent:" ++ p.dataAgentId.getD "")
  else if p.event.startsWith "leaderboard:" then some "leaderboard"
  else none

/-- Whether one local client receives a payload relayed from the broadcast
channel: it must be in the target room, or the payload is a global broadcast. -/
def receivesPayload (c : WsClient) (p : WsPayload) : Bool :=
  match targetRoom p with
  | some room => (clientRooms c).contains room
  | none => true

/-- The clients of one backend instance that receive a payload when that
instance's channel subscriber relays it. -/
def deliveredTo (clients : List WsClient) (inst : String) (p : WsPayload) :
    List WsClient :=
  clients.filter (fun c => c.instanceId == inst && receivesPayload c p)

/-- End-to-end delivery of one published envelope: `publishEvent` puts it on
the shared channel, every instance's subscriber receives it once and relays
it to its own local sockets — one broadcast round-trip. -/
def broadcastDelivery (clients : List WsClient) (p : WsPayload) :
    List WsClient :=
  clients.filter (fun c => receivesPayload c p)

/-! ### Rate Limiter (`middleware/rate-limit.ts`) -/

/-- Outcome of one `checkRateLimit` call: HTTP status (429 on rejection),
the `retryAfter` seconds of the 429 body, and the surviving sorted-set
entries (scores are `Date.now()` milliseconds; the member nonce makes every
entry distinct, so a list of scores models the set). -/
structure RateResult where
  allowed : Bool
  status : Nat
  retryAfter : Option Int
  entries : List Int
deriving Repr, DecidableEq

/-- `Math.ceil(x / 1000)` on an integer millisecond count. -/
def mathCeil1000 (x : Int) : Int :=
  ⌈(x : ℚ) / 1000⌉

/-- Minimum score of the sorted set (`zrange key 0 0`), `none` when empty. -/
def minScore : List Int → Option Int
  | [] => none
  | x :: xs =>
    match minScore xs with
    | none => some x
    | some m => some (min x m)

/-- `checkRateLimit` (lines 36-89): prune entries at or before
`now - windowMs` (`zremrangebyscore key 0 windowStart`), count the survivors
(`zcard`, before the `zadd` of the current request), always add the current
request, and reject with 429 when the count has reached the limit, computing
`retryAfter` from the oldest surviving entry. -/
def checkRateLimit (maxRequests : Nat) (windowMs now : Int)
    (entries : List Int) : RateResult :=
  let windowStart := now - windowMs
  let pruned := entries.filter (fun t => decide (windowStart < t))
  let currentCount := pruned.length
  let afterAdd := pruned ++ [now]
  if maxRequests ≤ currentCount then
    let resetTime :=
      match minScore afterAdd with
      | some oldest => oldest + windowMs
      | none => now + windowMs
    let retryAfter := mathCeil1000 (resetTime - now)
    { allowed := false, status := 429, retryAfter := some retryAfter, entries := afterAdd }
  else
    { allowed := true, status := 200, retryAfter := none, entries := afterAdd }

/-! ### Concrete instances and named predicates used by the theorems below -/

/-- Concrete environment for C1: every token resolves, unit price 1,
nothing throws. -/
def envC1 : IndexEnv :=
  { tokenInfoOf := fun _ => some ⟨"Token", "TOK", 0⟩
    priceOf := fun _ => 1
    persistFails := fun _ => false }

/-- Concrete swap for C1: the agent sent 100 of token A and received 40 of
token B. -/
def swapC1 : SwapEvent :=
  { txHash := "0xabc", blockNumber := 1, timestamp := 0
    tokenIn := "B", tokenOut := "A", amountIn := 40, amountOut := 100 }

/-- The Trade row the indexer persists for `swapC1`. -/
def rowC1 : TradeRow :=
  mkTradeRow envC1 "agent1" swapC1 ⟨"Token", "TOK", 0⟩ ⟨"Token", "TOK", 0⟩

/-- Concrete environment for C2/C10: every token resolves, unit price 2,
nothing throws. -/
def envC2 : IndexEnv :=
  { tokenInfoOf := fun _ => some ⟨"Name", "SYM", 0⟩
    priceOf := fun _ => 2
    persistFails := fun _ => false }

/-- Concrete swap for C2/C10. -/
def swapC2 : SwapEvent :=
  { txHash := "0xc2", blockNumber := 7, timestamp := 3
    tokenIn := "B2", tokenOut := "A2", amountIn := 5, amountOut := 6 }

/-- The table after the first C2 run. -/
def dbC2 : List TradeRow :=
  [mkTradeRow envC2 "ag" swapC2 ⟨"Name", "SYM", 0⟩ ⟨"Name", "SYM", 0⟩]

/-- Concrete environment for the C7 counterexample: persisting the trade of
hash `0xf1` throws, everything else succeeds. -/
def envC7 : IndexEnv :=
  { tokenInfoOf := fun _ => some ⟨"Name", "SYM", 0⟩
    priceOf := fun _ => 1
    persistFails := fun h => h == "0xf1" }

/-- First candidate of the C7 batch; persisting it throws. -/
def swapC7a : SwapEvent :=
  { txHash := "0xf1", blockNumber := 1, timestamp := 0
    tokenIn := "B", tokenOut := "A", amountIn := 1, amountOut := 1 }

/-- Second candidate of the C7 batch; on its own it indexes fine. -/
def swapC7b : SwapEvent :=
  { txHash := "0xf2", blockNumber := 2, timestamp := 0
    tokenIn := "B", tokenOut := "A", amountIn := 1, amountOut := 1 }

/-- Concrete environment for the C7 witness's skip conjunct: token `B` has
no resolvable info. -/
def envC7miss : IndexEnv :=
  { tokenInfoOf := fun t => if t == "B" then none else some ⟨"Name", "SYM", 0⟩
    priceOf := fun _ => 1
    persistFails := fun _ => false }

/-- A row persisted for a different agent (`other`) with the hash of
`swapC2`. -/
def rowC10 : TradeRow :=
  mkTradeRow envC2 "other" swapC2 ⟨"Name", "SYM", 0⟩ ⟨"Name", "SYM", 0⟩

/-- A synthetic trade of agent `a` with the given hash and profit, volume 10. -/
def rowC3 (h : String) (q : ℚ) : TradeRow :=
  { agentId := "a", txHash := h, blockNumber := 0, timestamp := 0
    dex := "UNISWAP_V2"
    tokenInAddress := "X", tokenInSymbol := "X", tokenInDecimals := 0, amountIn := 0
    tokenOutAddress := "Y", tokenOutSymbol := "Y", tokenOutDecimals := 0, amountOut := 0
    valueUsd := 10, profitLossUsd := q }

/-- The spec's synthetic trade set with profits +50, −20, +5. -/
def dbC3 : List TradeRow := [rowC3 "h1" 50, rowC3 "h2" (-20), rowC3 "h3" 5]

/-- Concrete payload for the C8 witness: a stats-update for agent `a1`. -/
def payloadC8 : WsPayload := { event := "agent:stats_updated", dataAgentId := some "a1" }

/-- Concrete clients for the C8 witness: agent `a1`'s socket lives on
instance `B`; the publishing instance is `A`. -/
def clientC8 : WsClient := { clientId := "s1", instanceId := "B", agentId := "a1" }

/-- Whether a (lowercased) cache key is one of the three known stablecoins. -/
def stableKey (k : String) : Prop :=
  k = lowerString USDC ∨ k = lowerString DAI ∨ k = lowerString USDT

/-- Reachability invariant of the in-memory price cache: the service only
ever caches entries for WETH or the three stablecoins (the only addresses
that resolve to a positive price), and a stablecoin entry always carries
price 1. -/
def cacheWellFormed (c : PriceCache) : Prop :=
  ∀ k e, (k, e) ∈ c →
    (stableKey k ∨ k = lowerString WETH) ∧ (stableKey k → e.price = 1)

/-- Chain environment of the three-log example: the transaction sits in
block 5, whose timestamp is 99. -/
def cenvC4 : ChainEnv := { receiptBlock := fun _ => 5, blockTimestamp := fun _ => 99 }

/-- The spec's three-log example in one transaction: `A→contract (100 TokenX)`,
`contract→pool (100 TokenX)`, `pool→A (40 TokenY)`. -/
def chainC4 : List TransferLog :=
  [ { txHash := "0xt1", fromAddr := "A", toAddr := "C", tokenAddress := "X", value := 100 }
  , { txHash := "0xt1", fromAddr := "C", toAddr := "P", tokenAddress := "X", value := 100 }
  , { txHash := "0xt1", fromAddr := "P", toAddr := "A", tokenAddress := "Y", value := 40 } ]

/-- Concrete environment for the C5 counterexample. -/
def envC5 : IndexEnv :=
  { tokenInfoOf := fun _ => some ⟨"T", "T", 0⟩
    priceOf := fun _ => 1
    persistFails := fun _ => false }

/-- Chain lookups for the C5 counterexample: the transaction sits exactly at
the lookback block 10000 (= 20000 − 10000). -/
def cenvC5 : ChainEnv := { receiptBlock := fun _ => 10000, blockTimestamp := fun _ => 7 }

/-- One swap transaction at block 10000 for wallet `A`. -/
def chainC5 : List TransferLog :=
  [ { txHash := "0xs", fromAddr := "A", toAddr := "P", tokenAddress := "X", value := 3 }
  , { txHash := "0xs", fromAddr := "P", toAddr := "A", tokenAddress := "Y", value := 9 } ]

/-- The swap candidate the Reconstructor emits for `chainC5`. -/
def swapC5 : SwapEvent :=
  { txHash := "0xs", blockNumber := 10000, timestamp := 7
    tokenIn := "Y", tokenOut := "X", amountIn := 9, amountOut := 3 }

/-- The row the C5 sweep persists. -/
def rowC5 : TradeRow := mkTradeRow envC5 "agent1" swapC5 ⟨"T", "T", 0⟩ ⟨"T", "T", 0⟩

/-! ### Lemmas about the candidate loop -/

theorem findTradeByTxHash_eq_none {db : List TradeRow} {h : String}
    (hf : findTradeByTxHash db h = none) : ∀ r ∈ db, r.txHash ≠ h := by
  intro r hr
  have := List.find?_eq_none.mp hf r hr
  simpa using this

theorem findTradeByTxHash_isSome {db : List TradeRow} {h : String}
    (r : TradeRow) (hr : r ∈ db) (hh : r.txHash = h) :
    (findTradeByTxHash db h).isSome := by
  unfold findTradeByTxHash
  exact List.find?_isSome.mpr ⟨r, hr, by simp [hh]⟩

theorem indexSwaps_ok_decomp (env : IndexEnv) (a : String) :
    ∀ (swaps : List SwapEvent) (db : List TradeRow) (n n' : Nat)
      (db' : List TradeRow),
      indexSwaps env a swaps db n = .ok (db', n') →
      ∃ ext, db' = db ++ ext ∧
        ∀ r' ∈ ext,
          (∃ s ∈ swaps, ∃ iIn iOut,
            env.tokenInfoOf s.tokenIn = some iIn ∧
            env.tokenInfoOf s.tokenOut = some iOut ∧
            r' = mkTradeRow env a s iIn iOut) ∧
          ∀ r ∈ db, r.txHash ≠ r'.txHash := by
  intro swaps
  induction swaps with
  | nil =>
    intro db n n' db' h
    simp only [indexSwaps, Except.ok.injEq, Prod.mk.injEq] at h
    obtain ⟨rfl, rfl⟩ := h
    exact ⟨[], by simp⟩
  | cons swap rest ih =>
    intro db n n' db' h
    rw [indexSwaps] at h
    cases hfind : findTradeByTxHash db swap.txHash with
    | some r0 =>
      rw [hfind] at h
      obtain ⟨ext, hdb, hprops⟩ := ih db n n' db' h
      refine ⟨ext, hdb, fun r' hr' => ?_⟩
      obtain ⟨⟨s, hs, rest'⟩, hfresh⟩ := hprops r' hr'
      exact ⟨⟨s, List.mem_cons_of_mem _ hs, rest'⟩, hfresh⟩
    | none =>
      rw [hfind] at h
      cases hIn : env.tokenInfoOf swap.tokenIn with
      | none =>
        rw [hIn] at h
        obtain ⟨ext, hdb, hprops⟩ := ih db n n' db' h
        refine ⟨ext, hdb, fun r' hr' => ?_⟩
        obtain ⟨⟨s, hs, rest'⟩, hfresh⟩ := hprops r' hr'
        exact ⟨⟨s, List.mem_cons_of_mem _ hs, rest'⟩, hfresh⟩
      | some iIn =>
        rw [hIn] at h
        cases hOut : env.tokenInfoOf swap.tokenOut with
        | none =>
          rw [hOut] at h
          obtain ⟨ext, hdb, hprops⟩ := ih db n n' db' h
          refine ⟨ext, hdb, fun r' hr' => ?_⟩
          obtain ⟨⟨s, hs, rest'⟩, hfresh⟩ := hprops r' hr'
          exact ⟨⟨s, List.mem_cons_of_mem _ hs, rest'⟩, hfresh⟩
        | some iOut =>
          rw [hOut] at h
          by_cases hpf : env.persistFails swap.txHash
          · simp [hpf] at h
          · simp only [hpf, if_false, Bool.false_eq_true] at h
            obtain ⟨ext', hdb, hprops⟩ := ih _ _ _ _ h
            refine ⟨mkTradeRow env a swap iIn iOut :: ext', by
              simpa [List.append_assoc] using hdb, fun r' hr' => ?_⟩
            rcases List.mem_cons.mp hr' with hre | hre
            · subst hre
              refine ⟨⟨swap, List.mem_cons_self _ _, iIn, iOut, hIn, hOut, rfl⟩, ?_⟩
              intro r hr
              have := findTradeByTxHash_eq_none hfind r hr
              simpa [mkTradeRow] using this
            · obtain ⟨⟨s, hs, rest'⟩, hfresh⟩ := hprops r' hre
              refine ⟨⟨s, List.mem_cons_of_mem _ hs, rest'⟩, fun r hr => ?_⟩
              exact hfresh r (List.mem_append_left _ hr)

theorem indexSwaps_ok_covers (env : IndexEnv) (a : String) :
    ∀ (swaps : List SwapEvent) (db : List TradeRow) (n n' : Nat)
      (db' : List TradeRow),
      indexSwaps env a swaps db n = .ok (db', n') →
      ∀ s ∈ swaps,
        (∃ r ∈ db', r.txHash = s.txHash) ∨
        env.tokenInfoOf s.tokenIn = none ∨ env.tokenInfoOf s.tokenOut = none := by
  intro swaps
  induction swaps with
  | nil => intro db n n' db' _ s hs; simp at hs
  | cons swap rest ih =>
    intro db n n' db' h s hs
    rw [indexSwaps] at h
    cases hfind : findTradeByTxHash db swap.txHash with
    | some r0 =>
      rw [hfind] at h
      rcases List.mem_cons.mp hs with rfl | hs'
      · left
        have hr0 : r0 ∈ db := List.mem_of_find?_eq_some hfind
        have hr0h : r0.txHash = s.txHash := by
          have := List.find?_some hfind
          simpa using this
        obtain ⟨ext, hdb, -⟩ := indexSwaps_ok_decomp env a rest db n n' db' h
        exact ⟨r0, hdb ▸ List.mem_append_left _ hr0, hr0h⟩
      · exact ih db n n' db' h s hs'
    | none =>
      rw [hfind] at h
      cases hIn : env.tokenInfoOf swap.tokenIn with
      | none =>
        rw [hIn] at h
        rcases List.mem_cons.mp hs with rfl | hs'
        · exact Or.inr (Or.inl hIn)
        · exact ih db n n' db' h s hs'
      | some iIn =>
        rw [hIn] at h
        cases hOut : env.tokenInfoOf swap.tokenOut with
        | none =>
          rw [hOut] at h
          rcases List.mem_cons.mp hs with rfl | hs'
          · exact Or.inr (Or.inr hOut)
          · exact ih db n n' db' h s hs'
        | some iOut =>
          rw [hOut] at h
          by_cases hpf : env.persistFails swap.txHash
          · simp [hpf] at h
          · simp only [hpf, if_false, Bool.false_eq_true] at h
            rcases List.mem_cons.mp hs with rfl | hs'
            · left
              obtain ⟨ext, hdb, -⟩ := indexSwaps_ok_decomp env a rest _ _ _ _ h
              refine ⟨mkTradeRow env a s iIn iOut, ?_, by simp [mkTradeRow]⟩
              rw [hdb]
              exact List.mem_append_left _ (by simp)
            · exact ih _ _ _ _ h s hs'

theorem indexSwaps_skip_all (env : IndexEnv) (a : String) :
    ∀ (swaps : List SwapEvent) (db : List TradeRow) (n : Nat),
      (∀ s ∈ swaps,
        (∃ r ∈ db, r.txHash = s.txHash) ∨
        env.tokenInfoOf s.tokenIn = none ∨ env.tokenInfoOf s.tokenOut = none) →
      indexSwaps env a swaps db n = .ok (db, n) := by
  intro swaps
  induction swaps with
  | nil => intro db n _; rfl
  | cons swap rest ih =>
    intro db n hcov
    rw [indexSwaps]
    rcases hcov swap (List.mem_cons_self _ _) with ⟨r, hr, hrh⟩ | hnone
    · have hsome := findTradeByTxHash_isSome r hr hrh
      cases hfind : findTradeByTxHash db swap.txHash with
      | none => rw [hfind] at hsome; simp at hsome
      | some r0 =>
        exact ih db n fun s hs => hcov s (List.mem_cons_of_mem _ hs)
    · cases hfind : findTradeByTxHash db swap.txHash with
      | some r0 => exact ih db n fun s hs => hcov s (List.mem_cons_of_mem _ hs)
      | none =>
        have hrest := ih db n fun s hs => hcov s (List.mem_cons_of_mem _ hs)
        cases hIn' : env.tokenInfoOf swap.tokenIn with
        | none => cases hOut' : env.tokenInfoOf swap.tokenOut <;> exact hrest
        | some iIn =>
          cases hOut' : env.tokenInfoOf swap.tokenOut with
          | none => exact hrest
          | some iOut =>
            rcases hnone with hIn | hOut
            · simp [hIn'] at hIn
            · simp [hOut'] at hOut

theorem indexSwaps_pairwise (env : IndexEnv) (a : String) :
    ∀ (swaps : List SwapEvent) (db : List TradeRow) (n n' : Nat)
      (db' : List TradeRow),
      indexSwaps env a swaps db n = .ok (db', n') →
      db.Pairwise (fun r s => r.txHash ≠ s.txHash) →
      db'.Pairwise (fun r s => r.txHash ≠ s.txHash) := by
  intro swaps
  induction swaps with
  | nil =>
    intro db n n' db' h hpw
    simp only [indexSwaps, Except.ok.injEq, Prod.mk.injEq] at h
    obtain ⟨rfl, rfl⟩ := h
    exact hpw
  | cons swap rest ih =>
    intro db n n' db' h hpw
    rw [indexSwaps] at h
    cases hfind : findTradeByTxHash db swap.txHash with
    | some r0 => rw [hfind] at h; exact ih db n n' db' h hpw
    | none =>
      rw [hfind] at h
      cases hIn : env.tokenInfoOf swap.tokenIn with
      | none => rw [hIn] at h; exact ih db n n' db' h hpw
      | some iIn =>
        rw [hIn] at h
        cases hOut : env.tokenInfoOf swap.tokenOut with
        | none => rw [hOut] at h; exact ih db n n' db' h hpw
        | some iOut =>
          rw [hOut] at h
          by_cases hpf : env.persistFails swap.txHash
          · simp [hpf] at h
          · simp only [hpf, if_false, Bool.false_eq_true] at h
            refine ih _ _ _ _ h ?_
            rw [List.pairwise_append]
            refine ⟨hpw, List.pairwise_singleton _ _, ?_⟩
            intro r hr r' hr'
            simp only [List.mem_singleton] at hr'
            subst hr'
            have := findTradeByTxHash_eq_none hfind r hr
            simpa [mkTradeRow] using this

theorem pairwise_filter_agent_hash (a' h : String) :
    ∀ (l : List TradeRow),
      l.Pairwise (fun r s => r.txHash ≠ s.txHash) →
      (l.filter (fun r => r.agentId == a' && r.txHash == h)).length ≤ 1 := by
  intro l
  induction l with
  | nil => intro _; simp
  | cons r rest ih =>
    intro hpw
    have hpw' := List.Pairwise.of_cons hpw
    by_cases hmatch : (r.agentId == a' && r.txHash == h) = true
    · rw [List.filter_cons, if_pos hmatch]
      have hrh : r.txHash = h := by
        have := (Bool.and_eq_true _ _).mp hmatch
        exact eq_of_beq this.2
      have : rest.filter (fun x => x.agentId == a' && x.txHash == h) = [] := by
        apply List.filter_eq_nil_iff.mpr
        intro x hx hxm
        have hxh : x.txHash = h := by
          have := (Bool.and_eq_true _ _).mp hxm
          exact eq_of_beq this.2
        exact List.rel_of_pairwise_cons hpw hx (hrh.trans hxh.symm)
      simp [this]
    · rw [List.filter_cons, if_neg hmatch]
      exact ih hpw'

/-! ### C1: sign of the persisted profitLossUsd -/

/-- C1, counterexample.  The indexer persists a row whose stored
`profitLossUsd` is 60, while the claim's formula — USD value of the row's
received leg (`tokenOut`/`amountOut` fields) minus USD value of its sent leg
(`tokenIn`/`amountIn` fields) — evaluates to −60 on the same row: the stored
value is the negation of the claimed one. -/
theorem C1_counterexample :
    indexAgentTrades envC1 "agent1" [swapC1] [] = .ok ([rowC1], 1) ∧
    rowC1.profitLossUsd = 60 ∧
    calculateUsdValue envC1 rowC1.tokenOutAddress rowC1.amountOut rowC1.tokenOutDecimals
      - calculateUsdValue envC1 rowC1.tokenInAddress rowC1.amountIn rowC1.tokenInDecimals
        = -60 ∧
    ¬ (rowC1.profitLossUsd =
        calculateUsdValue envC1 rowC1.tokenOutAddress rowC1.amountOut rowC1.tokenOutDecimals
          - calculateUsdValue envC1 rowC1.tokenInAddress rowC1.amountIn rowC1.tokenInDecimals) := by
  refine ⟨rfl, ?_, ?_, ?_⟩ <;>
    norm_num [rowC1, mkTradeRow, calculateUsdValue, envC1, swapC1]

/-- C1, amended.  For every swap candidate persisted by the Trade Indexer,
the stored `profitLossUsd` equals the USD value of the row's
`tokenIn`/`amountIn` fields (the sent leg) minus the USD value of the row's
`tokenOut`/`amountOut` fields (the received leg) — the negation of the
orientation in the original claim. -/
theorem C1_profitLoss_amended (env : IndexEnv) (a : String)
    (swaps : List SwapEvent) (db db' : List TradeRow) (n : Nat)
    (h1 : indexAgentTrades env a swaps db = .ok (db', n)) :
    ∀ r ∈ db', r ∈ db ∨
      r.profitLossUsd =
        calculateUsdValue env r.tokenInAddress r.amountIn r.tokenInDecimals
          - calculateUsdValue env r.tokenOutAddress r.amountOut r.tokenOutDecimals := by
  obtain ⟨ext, hdb, hprops⟩ := indexSwaps_ok_decomp env a swaps db 0 n db' h1
  intro r hr
  rw [hdb] at hr
  rcases List.mem_append.mp hr with h' | h'
  · exact Or.inl h'
  · obtain ⟨⟨s, _, iIn, iOut, _, _, rfl⟩, -⟩ := hprops r h'
    right
    simp [mkTradeRow]

/-- C1, witness for the amended theorem at `swapC1`. -/
theorem C1_profitLoss_amended_witness :
    rowC1 ∈ ([] : List TradeRow) ∨
      rowC1.profitLossUsd =
        calculateUsdValue envC1 rowC1.tokenInAddress rowC1.amountIn rowC1.tokenInDecimals
          - calculateUsdValue envC1 rowC1.tokenOutAddress rowC1.amountOut rowC1.tokenOutDecimals :=
  C1_profitLoss_amended envC1 "agent1" [swapC1] [] [rowC1] 1 rfl
    rowC1 (by simp)

/-! ### C2: idempotency of the Trade Indexer -/

/-- C2.  Re-running the indexer over the same candidates starting from the
table the first run produced persists nothing: every candidate is skipped
(its hash is already present, or its token info still fails), the table is
unchanged and the indexed count is 0; moreover, when the initial table had at
most one row per transaction hash, the resulting table has at most one row
per (agent, transaction hash) pair. -/
theorem C2_indexer_idempotent (env : IndexEnv) (a : String)
    (swaps : List SwapEvent) (db db1 : List TradeRow) (n : Nat)
    (h1 : indexAgentTrades env a swaps db = .ok (db1, n)) :
    indexAgentTrades env a swaps db1 = .ok (db1, 0) ∧
    (db.Pairwise (fun r s => r.txHash ≠ s.txHash) →
      ∀ a' h,
        (db1.filter (fun r => r.agentId == a' && r.txHash == h)).length ≤ 1) := by
  constructor
  · exact indexSwaps_skip_all env a swaps db1 0
      (indexSwaps_ok_covers env a swaps db 0 n db1 h1)
  · intro hpw a' h
    exact pairwise_filter_agent_hash a' h db1
      (indexSwaps_pairwise env a swaps db 0 n db1 h1 hpw)

/-- C2, witness: the second run over `[swapC2]` leaves `dbC2` unchanged with
count 0, and the (agent, hash) multiplicity stays at most 1. -/
theorem C2_indexer_idempotent_witness :
    indexAgentTrades envC2 "ag" [swapC2] dbC2 = .ok (dbC2, 0) ∧
    (dbC2.filter (fun r => r.agentId == "ag" && r.txHash == "0xc2")).length ≤ 1 := by
  have h := C2_indexer_idempotent envC2 "ag" [swapC2] [] dbC2 1 rfl
  exact ⟨h.1, h.2 List.Pairwise.nil "ag" "0xc2"⟩

/-! ### C7: error isolation inside one indexing pass -/

/-- C7, counterexample.  A batch of two healthy-looking candidates where
persisting the first throws: the whole pass aborts with the exception
(nothing more is processed), even though the second candidate alone indexes
successfully — the thrown error does not merely skip the failing candidate. -/
theorem C7_counterexample :
    indexAgentTrades envC7 "a" [swapC7a, swapC7b] [] = .error () ∧
    indexAgentTrades envC7 "a" [swapC7b] [] =
      .ok ([mkTradeRow envC7 "a" swapC7b ⟨"Name", "SYM", 0⟩ ⟨"Name", "SYM", 0⟩], 1) := by
  exact ⟨rfl, rfl⟩

/-- C7, amended.  Only a failed token-info lookup (surfaced as `null`, not a
thrown error) is isolated to its candidate — the loop continues exactly as if
that candidate were absent; an error thrown while persisting a candidate's
Trade row aborts the remaining candidates of the agent's pass. -/
theorem C7_error_isolation_amended :
    (∀ (env : IndexEnv) (a : String) (s : SwapEvent) (rest : List SwapEvent)
        (db : List TradeRow) (n : Nat),
      findTradeByTxHash db s.txHash = none →
      (env.tokenInfoOf s.tokenIn = none ∨ env.tokenInfoOf s.tokenOut = none) →
      indexSwaps env a (s :: rest) db n = indexSwaps env a rest db n) ∧
    (∀ (env : IndexEnv) (a : String) (s : SwapEvent) (rest : List SwapEvent)
        (db : List TradeRow) (n : Nat) (iIn iOut : TokenInfo),
      findTradeByTxHash db s.txHash = none →
      env.tokenInfoOf s.tokenIn = some iIn →
      env.tokenInfoOf s.tokenOut = some iOut →
      env.persistFails s.txHash = true →
      indexSwaps env a (s :: rest) db n = .error ()) := by
  constructor
  · intro env a s rest db n hfind hnone
    rw [indexSwaps, hfind]
    rcases hnone with hIn | hOut
    · rw [hIn]
    · rw [hOut]
      cases env.tokenInfoOf s.tokenIn <;> rfl
  · intro env a s rest db n iIn iOut hfind hIn hOut hpf
    simp [indexSwaps, hfind, hIn, hOut, hpf]

/-- C7, witness for the amended theorem: a candidate with failing token info
is skipped with the loop continuing, and a candidate whose persist throws
aborts the pass. -/
theorem C7_error_isolation_amended_witness :
    indexSwaps envC7miss "a" [swapC7a, swapC7b] [] 0 =
      indexSwaps envC7miss "a" [swapC7b] [] 0 ∧
    indexSwaps envC7 "a" [swapC7a] [] 0 = .error () := by
  constructor
  · exact C7_error_isolation_amended.1 envC7miss "a" swapC7a [swapC7b] [] 0 rfl
      (Or.inl rfl)
  · exact C7_error_isolation_amended.2 envC7 "a" swapC7a [] [] 0
      ⟨"Name", "SYM", 0⟩ ⟨"Name", "SYM", 0⟩ rfl rfl rfl rfl

/-! ### C10: the duplicate check is keyed by hash alone, globally -/

/-- C10.  The duplicate check is `findUnique` on the transaction hash alone:
starting from a table with at most one row per hash across all agents, any
indexing pass (for any agent) preserves that global uniqueness, and for a
candidate whose hash is already persisted — under any agent — every row of
the resulting table carrying that hash was already present before the pass
(the candidate was skipped, nothing was added for it). -/
theorem C10_global_hash_uniqueness (env : IndexEnv) (a : String)
    (swaps : List SwapEvent) (db db' : List TradeRow) (n : Nat)
    (hpw : db.Pairwise (fun r s => r.txHash ≠ s.txHash))
    (h1 : indexAgentTrades env a swaps db = .ok (db', n)) :
    db'.Pairwise (fun r s => r.txHash ≠ s.txHash) ∧
    ∀ s ∈ swaps, ∀ r ∈ db, r.txHash = s.txHash →
      ∀ r' ∈ db', r'.txHash = s.txHash → r' ∈ db := by
  refine ⟨indexSwaps_pairwise env a swaps db 0 n db' h1 hpw, ?_⟩
  intro s _ r hr hrh r' hr' hr'h
  obtain ⟨ext, hdb, hprops⟩ := indexSwaps_ok_decomp env a swaps db 0 n db' h1
  rw [hdb] at hr'
  rcases List.mem_append.mp hr' with h' | h'
  · exact h'
  · exact absurd (hrh.trans hr'h.symm) ((hprops r' h').2 r hr)

/-- C10, witness: indexing agent `ag2` against a table holding `rowC10`
(same hash, different agent) changes nothing — the only row with that hash
in the result was already there. -/
theorem C10_global_hash_uniqueness_witness :
    ([rowC10] : List TradeRow).Pairwise (fun r s => r.txHash ≠ s.txHash) ∧
    rowC10 ∈ ([rowC10] : List TradeRow) := by
  have h := C10_global_hash_uniqueness envC2 "ag2" [swapC2] [rowC10] [rowC10] 0
    (List.pairwise_singleton _ _) rfl
  exact ⟨h.1, h.2 swapC2 (by simp) rowC10 (by simp) rfl rowC10 (by simp) rfl⟩

/-! ### C3: correctness of the Stats Aggregator -/

/-- C3.  Over a non-empty trade set the aggregator writes
`totalVolumeUsd = Σ valueUsd`, `totalProfitUsd = Σ profitLossUsd`,
`totalTrades = count` and `winRate = 100 × count(profitLossUsd > 0) / count`;
on the spec's synthetic profits [+50, −20, +5] it writes
`totalProfitUsd = 35` and `winRate = 200/3`. -/
theorem C3_stats_aggregate :
    (∀ (db : List TradeRow) (a : String) (prev : AgentStats),
      (db.filter (fun r => r.agentId == a)).length ≠ 0 →
      (updateAgentStats db a prev).totalVolumeUsd =
          ((db.filter (fun r => r.agentId == a)).map (fun t => t.valueUsd)).sum ∧
      (updateAgentStats db a prev).totalProfitUsd =
          ((db.filter (fun r => r.agentId == a)).map (fun t => t.profitLossUsd)).sum ∧
      (updateAgentStats db a prev).totalTrades =
          (db.filter (fun r => r.agentId == a)).length ∧
      (updateAgentStats db a prev).winRate =
          100 * (((db.filter (fun r => r.agentId == a)).filter
              (fun t => decide (0 < t.profitLossUsd))).length : ℚ)
            / ((db.filter (fun r => r.agentId == a)).length : ℚ)) ∧
    (updateAgentStats dbC3 "a" ⟨0, 0, 0, 0⟩).totalProfitUsd = 35 ∧
    (updateAgentStats dbC3 "a" ⟨0, 0, 0, 0⟩).winRate = 200 / 3 := by
  refine ⟨?_, ?_, ?_⟩
  · intro db a prev hne
    simp only [updateAgentStats, if_neg hne]
    refine ⟨trivial, trivial, trivial, ?_⟩
    ring
  · norm_num [updateAgentStats, dbC3, rowC3]
  · norm_num [updateAgentStats, dbC3, rowC3]

/-- C3, witness at the synthetic trade set. -/
theorem C3_stats_aggregate_witness :
    (updateAgentStats dbC3 "a" ⟨0, 0, 0, 0⟩).totalVolumeUsd =
        ((dbC3.filter (fun r => r.agentId == "a")).map (fun t => t.valueUsd)).sum ∧
    (updateAgentStats dbC3 "a" ⟨0, 0, 0, 0⟩).totalProfitUsd =
        ((dbC3.filter (fun r => r.agentId == "a")).map (fun t => t.profitLossUsd)).sum ∧
    (updateAgentStats dbC3 "a" ⟨0, 0, 0, 0⟩).totalTrades =
        (dbC3.filter (fun r => r.agentId == "a")).length ∧
    (updateAgentStats dbC3 "a" ⟨0, 0, 0, 0⟩).winRate =
        100 * (((dbC3.filter (fun r => r.agentId == "a")).filter
            (fun t => decide (0 < t.profitLossUsd))).length : ℚ)
          / ((dbC3.filter (fun r => r.agentId == "a")).length : ℚ) :=
  C3_stats_aggregate.1 dbC3 "a" ⟨0, 0, 0, 0⟩ (by decide)

/-! ### C8: cross-instance fan-out routing -/

/-- C8.  Every envelope relayed from the shared broadcast channel is
delivered only to local subscribers of the room matching its routing hint —
a payload carrying a (truthy) `agentId` only to members of that agent's room,
a `leaderboard:`-scoped event only to members of the leaderboard room — and
an envelope whose target room a client has joined reaches that client through
its own instance's relay, whichever instance published it (one broadcast
round-trip). -/
theorem C8_fanout_routing :
    (∀ (clients : List WsClient) (p : WsPayload) (c : WsClient),
      hasAgentId p = true → c ∈ broadcastDelivery clients p →
      ("agent:" ++ p.dataAgentId.getD "") ∈ clientRooms c) ∧
    (∀ (clients : List WsClient) (p : WsPayload) (c : WsClient),
      p.event.startsWith "leaderboard:" = true → c ∈ broadcastDelivery clients p →
      "leaderboard" ∈ clientRooms c) ∧
    (∀ (clients : List WsClient) (p : WsPayload) (c : WsClient) (room : String),
      c ∈ clients → targetRoom p = some room → room ∈ clientRooms c →
      c ∈ deliveredTo clients c.instanceId p) := by
  refine ⟨?_, ?_, ?_⟩
  · intro clients p c hid hmem
    have hrec : receivesPayload c p = true := (List.mem_filter.mp hmem).2
    unfold receivesPayload targetRoom at hrec
    rw [if_pos hid] at hrec
    simpa using hrec
  · intro clients p c _ _
    simp [clientRooms]
  · intro clients p c room hc htr hroom
    apply List.mem_filter.mpr
    refine ⟨hc, ?_⟩
    have hrec : receivesPayload c p = true := by
      unfold receivesPayload
      rw [htr]
      simpa using hroom
    simp [hrec]

/-- C8, witness: the payload routed to room `agent:a1` reaches `clientC8` on
instance `B`, and every recipient is a member of that room. -/
theorem C8_fanout_routing_witness :
    ("agent:" ++ payloadC8.dataAgentId.getD "") ∈ clientRooms clientC8 ∧
    clientC8 ∈ deliveredTo [clientC8] clientC8.instanceId payloadC8 := by
  constructor
  · exact C8_fanout_routing.1 [clientC8] payloadC8 clientC8 rfl (by decide)
  · exact C8_fanout_routing.2.2 [clientC8] payloadC8 clientC8 "agent:a1"
      (by simp) rfl (by decide)

/-! ### C9: sliding-window rate limiting -/

theorem minScore_le : ∀ (l : List Int) (m : Int), minScore l = some m →
    ∀ x ∈ l, m ≤ x := by
  intro l
  induction l with
  | nil => intro m h; cases h
  | cons y ys ih =>
    intro m h x hx
    rw [minScore] at h
    cases hys : minScore ys with
    | none =>
      rw [hys] at h
      cases h
      rcases List.mem_cons.mp hx with rfl | hx'
      · exact le_refl x
      · cases hys' : minScore ys with
        | none =>
          exfalso
          revert hx'
          induction ys with
          | nil => simp
          | cons z zs _ => rw [minScore] at hys'; cases hzs : minScore zs <;>
              rw [hzs] at hys' <;> cases hys'
        | some m' => rw [hys] at hys'; cases hys'
    | some m' =>
      rw [hys] at h
      cases h
      rcases List.mem_cons.mp hx with rfl | hx'
      · exact min_le_left _ _
      · exact le_trans (min_le_right _ _) (ih m' hys x hx')

theorem minScore_eq_none : ∀ (l : List Int), minScore l = none → l = [] := by
  intro l
  cases l with
  | nil => intro _; rfl
  | cons y ys =>
    intro h
    rw [minScore] at h
    cases hys : minScore ys <;> rw [hys] at h <;> cases h

/-- C9.  With limit 2: when at least two requests sit inside the trailing
window, the next request is rejected with status 429 and a `retryAfter`
of at most the window length (in seconds, the unit of the header); and when
every recorded entry has fallen outside the trailing window, the next
request is accepted. -/
theorem C9_rate_limit :
    (∀ (windowMs now : Int) (entries : List Int),
      (1000 : Int) ∣ windowMs →
      2 ≤ (entries.filter (fun t => decide (now - windowMs < t))).length →
      (checkRateLimit 2 windowMs now entries).allowed = false ∧
      (checkRateLimit 2 windowMs now entries).status = 429 ∧
      ∃ ra, (checkRateLimit 2 windowMs now entries).retryAfter = some ra ∧
        ra ≤ windowMs / 1000) ∧
    (∀ (windowMs now : Int) (entries : List Int),
      (∀ t ∈ entries, t ≤ now - windowMs) →
      (checkRateLimit 2 windowMs now entries).allowed = true ∧
      (checkRateLimit 2 windowMs now entries).status = 200) := by
  constructor
  · intro windowMs now entries hdvd hfull
    unfold checkRateLimit
    rw [if_pos hfull]
    cases hmin : minScore
        ((entries.filter (fun t => decide (now - windowMs < t))) ++ [now]) with
    | none =>
      exfalso
      have := minScore_eq_none _ hmin
      simp at this
    | some oldest =>
      refine ⟨rfl, rfl, mathCeil1000 (oldest + windowMs - now), rfl, ?_⟩
      obtain ⟨k, rfl⟩ := hdvd
      have holdest : oldest ≤ now :=
        minScore_le _ _ hmin now (List.mem_append_right _ (List.mem_singleton.mpr rfl))
      have harg : oldest + 1000 * k - now ≤ 1000 * k := by omega
      have hceil : mathCeil1000 (oldest + 1000 * k - now) ≤ mathCeil1000 (1000 * k) := by
        unfold mathCeil1000
        apply Int.ceil_le_ceil
        apply div_le_div_of_nonneg_right _ (by norm_num)
        exact_mod_cast harg
      have hK : mathCeil1000 (1000 * k) = k := by
        unfold mathCeil1000
        rw [show ((1000 * k : Int) : ℚ) = 1000 * (k : ℚ) by push_cast; ring]
        rw [mul_comm, mul_div_assoc]
        norm_num
      have hdivK : (1000 * k) / 1000 = k := by
        omega
      rw [hdivK]
      rw [hK] at hceil
      exact hceil
  · intro windowMs now entries hall
    have hempty : entries.filter (fun t => decide (now - windowMs < t)) = [] := by
      apply List.filter_eq_nil_iff.mpr
      intro t ht
      simpa using not_lt.mpr (hall t ht)
    simp [checkRateLimit, hempty]

/-- C9, witness: entries at 9000 and 9500 inside a 2-second window reject the
request at 10000 with 429 and retryAfter 1 ≤ 2; entries all at or before
18000 admit the request at 20000. -/
theorem C9_rate_limit_witness :
    ((checkRateLimit 2 2000 10000 [9000, 9500]).allowed = false ∧
      (checkRateLimit 2 2000 10000 [9000, 9500]).status = 429 ∧
      ∃ ra, (checkRateLimit 2 2000 10000 [9000, 9500]).retryAfter = some ra ∧
        ra ≤ 2000 / 1000) ∧
    ((checkRateLimit 2 2000 20000 [9000, 9500, 10000]).allowed = true ∧
      (checkRateLimit 2 2000 20000 [9000, 9500, 10000]).status = 200) := by
  constructor
  · exact C9_rate_limit.1 2000 10000 [9000, 9500] (by norm_num) (by decide)
  · exact C9_rate_limit.2 2000 20000 [9000, 9500, 10000] (by decide)

/-! ### C6: the Price Resolver on stablecoins and unknown tokens -/

theorem stable_keys_ne_weth (k : String) (h : stableKey k) :
    k ≠ lowerString WETH := by
  rcases h with rfl | rfl | rfl <;> decide

theorem getWethPrice_ne_zero (feed : Option ℚ) : getWethPrice feed ≠ 0 := by
  cases feed with
  | none => norm_num [getWethPrice]
  | some q =>
    by_cases h : q = 0 <;> simp [getWethPrice, h]

theorem getPriceFromUniswap_stable (feed : Option ℚ) (addr : String)
    (h : stableKey (lowerString addr)) : getPriceFromUniswap feed addr = 1 := by
  have hne : (lowerString addr == lowerString WETH) = false := by
    simp only [beq_eq_false_iff_ne]
    exact stable_keys_ne_weth _ h
  have hst : (lowerString addr == lowerString USDC
      || lowerString addr == lowerString DAI
      || lowerString addr == lowerString USDT) = true := by
    rcases h with h | h | h <;> simp [h]
  simp [getPriceFromUniswap, hne, hst]

theorem getPriceFromUniswap_unknown (feed : Option ℚ) (addr : String)
    (h1 : ¬ stableKey (lowerString addr))
    (h2 : lowerString addr ≠ lowerString WETH) :
    getPriceFromUniswap feed addr = 0 := by
  rw [stableKey] at h1
  push_neg at h1
  simp [getPriceFromUniswap, h1.1, h1.2.1, h1.2.2, h2]

theorem getFallbackPrice_unknown (addr : String)
    (h1 : ¬ stableKey (lowerString addr))
    (h2 : lowerString addr ≠ lowerString WETH) :
    getFallbackPrice addr = 0 := by
  rw [stableKey] at h1
  push_neg at h1
  simp [getFallbackPrice, h1.1, h1.2.1, h1.2.2, h2]

theorem getPriceFromUniswap_weth (feed : Option ℚ) (addr : String)
    (h : lowerString addr = lowerString WETH) :
    getPriceFromUniswap feed addr = getWethPrice feed := by
  simp [getPriceFromUniswap, h]

theorem resolvePrice_stable (cache : PriceCache) (now : Int) (feed : Option ℚ)
    (addr : String) (h : stableKey (lowerString addr)) :
    resolvePrice cache now feed addr =
      (1, cacheSet cache (lowerString addr) ⟨1, now⟩) := by
  simp [resolvePrice, getPriceFromUniswap_stable feed addr h]

theorem resolvePrice_unknown (cache : PriceCache) (now : Int) (feed : Option ℚ)
    (addr : String) (h1 : ¬ stableKey (lowerString addr))
    (h2 : lowerString addr ≠ lowerString WETH) :
    resolvePrice cache now feed addr = (0, cache) := by
  simp [resolvePrice, getPriceFromUniswap_unknown feed addr h1 h2,
    getFallbackPrice_unknown addr h1 h2]

theorem cacheGet_some (c : PriceCache) (k : String) (e : CacheEntry)
    (h : cacheGet c k = some e) : (k, e) ∈ c := by
  unfold cacheGet at h
  cases hf : c.find? (fun p => p.1 == k) with
  | none => rw [hf] at h; cases h
  | some pr =>
    rw [hf] at h
    have he : pr.2 = e := by
      injection h
    have hmem := List.mem_of_find?_eq_some hf
    have hk : pr.1 = k := by
      have := List.find?_some hf
      simpa using this
    rw [← he, ← hk]
    simpa using hmem

theorem cacheGet_none_of_unknown (c : PriceCache) (k : String)
    (hwf : cacheWellFormed c) (h1 : ¬ stableKey k) (h2 : k ≠ lowerString WETH) :
    cacheGet c k = none := by
  cases hg : cacheGet c k with
  | none => rfl
  | some e =>
    exfalso
    rcases (hwf k e (cacheGet_some c k e hg)).1 with hs | hw
    · exact h1 hs
    · exact h2 hw

theorem resolvePrice_wellFormed (cache : PriceCache) (now : Int)
    (feed : Option ℚ) (addr : String) (hwf : cacheWellFormed cache) :
    cacheWellFormed (resolvePrice cache now feed addr).2 := by
  by_cases hst : stableKey (lowerString addr)
  · rw [resolvePrice_stable cache now feed addr hst]
    intro k e hmem
    rcases List.mem_append.mp hmem with hm | hm
    · exact hwf k e (List.mem_of_mem_filter hm)
    · rw [List.mem_singleton] at hm
      injection hm with hk he
      subst hk; subst he
      exact ⟨Or.inl hst, fun _ => rfl⟩
  · by_cases hw : lowerString addr = lowerString WETH
    · have hres : resolvePrice cache now feed addr =
          if 0 < getWethPrice feed then
            (getWethPrice feed,
              cacheSet cache (lowerString addr) ⟨getWethPrice feed, now⟩)
          else (getWethPrice feed, cache) := by
        simp [resolvePrice, getPriceFromUniswap_weth feed addr hw,
          getWethPrice_ne_zero feed]
      rw [hres]
      by_cases hpos : 0 < getWethPrice feed
      · rw [if_pos hpos]
        intro k e hmem
        rcases List.mem_append.mp hmem with hm | hm
        · exact hwf k e (List.mem_of_mem_filter hm)
        · rw [List.mem_singleton] at hm
          injection hm with hk he
          subst hk; subst he
          exact ⟨Or.inr hw, fun hs => absurd hw (stable_keys_ne_weth _ hs)⟩
      · rw [if_neg hpos]
        exact hwf
    · rw [resolvePrice_unknown cache now feed addr hst hw]
      exact hwf

/-- C6.  On any cache state the service can reach (an invariant preserved by
every call and true of the initial empty cache): resolving a known stablecoin
returns exactly 1, resolving an address with no known liquidity path returns
0, and — the functions being total, every throw-site of the source being
caught — neither raises. -/
theorem C6_price_resolver :
    (∀ (cache : PriceCache) (now : Int) (feed : Option ℚ) (addr : String),
      cacheWellFormed cache → stableKey (lowerString addr) →
      (getTokenPriceUsd cache now feed addr).1 = 1) ∧
    (∀ (cache : PriceCache) (now : Int) (feed : Option ℚ) (addr : String),
      cacheWellFormed cache → ¬ stableKey (lowerString addr) →
      lowerString addr ≠ lowerString WETH →
      (getTokenPriceUsd cache now feed addr).1 = 0) ∧
    (∀ (cache : PriceCache) (now : Int) (feed : Option ℚ) (addr : String),
      cacheWellFormed cache →
      cacheWellFormed (getTokenPriceUsd cache now feed addr).2) ∧
    cacheWellFormed ([] : PriceCache) := by
  refine ⟨?_, ?_, ?_, ?_⟩
  · intro cache now feed addr hwf hst
    unfold getTokenPriceUsd
    cases hg : cacheGet cache (lowerString addr) with
    | some e =>
      show (if now - e.timestamp < CACHE_TTL then (e.price, cache)
          else resolvePrice cache now feed addr).1 = 1
      have he : e.price = 1 := (hwf _ _ (cacheGet_some _ _ _ hg)).2 hst
      by_cases hf : now - e.timestamp < CACHE_TTL
      · rw [if_pos hf]; exact he
      · rw [if_neg hf, resolvePrice_stable cache now feed addr hst]
    | none =>
      show (resolvePrice cache now feed addr).1 = 1
      rw [resolvePrice_stable cache now feed addr hst]
  · intro cache now feed addr hwf h1 h2
    unfold getTokenPriceUsd
    rw [cacheGet_none_of_unknown cache _ hwf h1 h2,
      resolvePrice_unknown cache now feed addr h1 h2]
  · intro cache now feed addr hwf
    unfold getTokenPriceUsd
    cases hg : cacheGet cache (lowerString addr) with
    | some e =>
      show cacheWellFormed (if now - e.timestamp < CACHE_TTL then (e.price, cache)
          else resolvePrice cache now feed addr).2
      by_cases hf : now - e.timestamp < CACHE_TTL
      · rw [if_pos hf]; exact hwf
      · rw [if_neg hf]
        exact resolvePrice_wellFormed cache now feed addr hwf
    | none =>
      show cacheWellFormed (resolvePrice cache now feed addr).2
      exact resolvePrice_wellFormed cache now feed addr hwf
  · intro k e h
    exact absurd h (List.not_mem_nil _)

/-- C6, witness: on the empty cache, USDC resolves to 1 and an unknown
address resolves to 0. -/
theorem C6_price_resolver_witness :
    (getTokenPriceUsd [] 0 none USDC).1 = 1 ∧
    (getTokenPriceUsd [] 0 none "0xDEADBEEF").1 = 0 := by
  constructor
  · exact C6_price_resolver.1 [] 0 none USDC
      (fun k e h => absurd h (List.not_mem_nil _)) (Or.inl rfl)
  · exact C6_price_resolver.2.1 [] 0 none "0xDEADBEEF"
      (fun k e h => absurd h (List.not_mem_nil _))
      (by rw [stableKey]; push_neg; exact ⟨by decide, by decide, by decide⟩)
      (by decide)

/-! ### Lemmas about the Reconstructor pipeline -/

theorem countP_insertByBlock (p : SwapEvent → Bool) (s : SwapEvent) :
    ∀ l, (insertByBlock s l).countP p = ((s :: l).countP p) := by
  intro l
  induction l with
  | nil => rfl
  | cons x xs ih =>
    rw [insertByBlock]
    by_cases h : s.blockNumber ≤ x.blockNumber
    · rw [if_pos h]
    · rw [if_neg h]
      rw [List.countP_cons, List.countP_cons, ih, List.countP_cons,
        List.countP_cons]
      omega

theorem countP_sortByBlock (p : SwapEvent → Bool) :
    ∀ l, (sortByBlock l).countP p = l.countP p := by
  intro l
  induction l with
  | nil => rfl
  | cons x xs ih =>
    show (insertByBlock x (sortByBlock xs)).countP p = _
    rw [countP_insertByBlock, List.countP_cons, List.countP_cons, ih]

theorem mem_insertByBlock (s a : SwapEvent) :
    ∀ l, a ∈ insertByBlock s l ↔ a ∈ s :: l := by
  intro l
  induction l with
  | nil => simp [insertByBlock]
  | cons x xs ih =>
    rw [insertByBlock]
    by_cases h : s.blockNumber ≤ x.blockNumber
    · rw [if_pos h]
    · rw [if_neg h]
      simp only [List.mem_cons, ih, List.mem_cons]
      tauto

theorem mem_sortByBlock (a : SwapEvent) :
    ∀ l, a ∈ sortByBlock l ↔ a ∈ l := by
  intro l
  induction l with
  | nil => simp [sortByBlock]
  | cons x xs ih =>
    show a ∈ insertByBlock x (sortByBlock xs) ↔ _
    rw [mem_insertByBlock]
    simp only [List.mem_cons, ih]

theorem mem_insertKey (ks : List String) (k x : String) :
    x ∈ insertKey ks k ↔ x ∈ ks ∨ x = k := by
  unfold insertKey
  by_cases h : ks.contains k
  · rw [if_pos h]
    constructor
    · exact Or.inl
    · rintro (hx | rfl)
      · exact hx
      · simpa using h
  · rw [if_neg h]
    simp

theorem nodup_insertKey (ks : List String) (k : String) (h : ks.Nodup) :
    (insertKey ks k).Nodup := by
  unfold insertKey
  by_cases hc : ks.contains k
  · rw [if_pos hc]; exact h
  · rw [if_neg hc]
    rw [List.nodup_append]
    refine ⟨h, List.nodup_singleton _, ?_⟩
    intro x hx hk
    rw [List.mem_singleton] at hk
    subst hk
    have hnk : x ∉ ks := by simpa using hc
    exact hnk hx

theorem txKeys_foldl_spec (l : List TransferLog) :
    ∀ acc : List String,
      (∀ x, x ∈ l.foldl (fun ks t => insertKey ks t.txHash) acc ↔
        x ∈ acc ∨ ∃ t ∈ l, t.txHash = x) ∧
      (acc.Nodup → (l.foldl (fun ks t => insertKey ks t.txHash) acc).Nodup) := by
  induction l with
  | nil => intro acc; simp
  | cons t ts ih =>
    intro acc
    rw [List.foldl_cons]
    refine ⟨fun x => ?_, fun hnd => ?_⟩
    · rw [(ih (insertKey acc t.txHash)).1 x, mem_insertKey]
      simp only [List.mem_cons]
      constructor
      · rintro ((hx | rfl) | ⟨t', ht', rfl⟩)
        · exact Or.inl hx
        · exact Or.inr ⟨t, Or.inl rfl, rfl⟩
        · exact Or.inr ⟨t', Or.inr ht', rfl⟩
      · rintro (hx | ⟨t', (rfl | ht'), rfl⟩)
        · exact Or.inl (Or.inl hx)
        · exact Or.inl (Or.inr rfl)
        · exact Or.inr ⟨t', ht', rfl⟩
    · exact (ih (insertKey acc t.txHash)).2 (nodup_insertKey acc t.txHash hnd)

theorem mem_txKeys (l : List TransferLog) (x : String) :
    x ∈ txKeys l ↔ ∃ t ∈ l, t.txHash = x := by
  rw [txKeys, (txKeys_foldl_spec l []).1 x]
  simp

theorem txKeys_nodup (l : List TransferLog) : (txKeys l).Nodup :=
  (txKeys_foldl_spec l []).2 List.nodup_nil

theorem countP_filterMap_keys (f : String → Option SwapEvent)
    (hf : ∀ k s, f k = some s → s.txHash = k) (h : String) :
    ∀ keys : List String, keys.Nodup →
      ((keys.filterMap f).countP (fun s => s.txHash == h)) =
        if h ∈ keys then
          (match f h with | some _ => 1 | none => 0)
        else 0 := by
  intro keys
  induction keys with
  | nil => intro _; simp
  | cons k ks ih =>
    intro hnd
    have hk : k ∉ ks := (List.nodup_cons.mp hnd).1
    have hnd' : ks.Nodup := (List.nodup_cons.mp hnd).2
    rw [List.filterMap_cons]
    cases hfk : f k with
    | none =>
      rw [ih hnd']
      by_cases hhk : h = k
      · subst hhk
        rw [hfk]
        simp [hk]
      · simp only [List.mem_cons]
        by_cases hin : h ∈ ks <;> simp [hin, hhk]
    | some s =>
      have hsk : s.txHash = k := hf k s hfk
      rw [List.countP_cons, ih hnd']
      by_cases hhk : h = k
      · subst hhk
        rw [hfk]
        have hps : (s.txHash == h) = true := by simp [hsk]
        simp [hk, hps]
      · have hps : (s.txHash == h) = false := by
          simp only [beq_eq_false_iff_ne]
          rw [hsk]
          exact fun hh => hhk hh.symm
        simp only [List.mem_cons]
        by_cases hin : h ∈ ks <;> simp [hin, hhk, hps]

theorem parseSwap_some (cenv : ChainEnv) (h : String)
    (transfers : List TransferLog) (addr : String) (s : SwapEvent)
    (hp : parseSwapFromTransfers cenv h transfers addr = some s) :
    ∃ o i, (transfers.filter (fun t => t.fromAddr == addr)).head? = some o ∧
      (transfers.filter (fun t => t.toAddr == addr)).getLast? = some i ∧
      s = { txHash := h
            blockNumber := cenv.receiptBlock h
            timestamp := cenv.blockTimestamp (cenv.receiptBlock h)
            tokenIn := i.tokenAddress
            tokenOut := o.tokenAddress
            amountIn := i.value
            amountOut := o.value } := by
  unfold parseSwapFromTransfers at hp
  cases hout : (transfers.filter (fun t => t.fromAddr == addr)).head? with
  | none =>
    rw [hout] at hp
    cases hin : (transfers.filter (fun t => t.toAddr == addr)).getLast? <;>
      rw [hin] at hp <;> cases hp
  | some o =>
    rw [hout] at hp
    cases hin : (transfers.filter (fun t => t.toAddr == addr)).getLast? with
    | none => rw [hin] at hp; cases hp
    | some i =>
      rw [hin] at hp
      refine ⟨o, i, rfl, rfl, ?_⟩
      injection hp with hp
      exact hp.symm

theorem parseSwap_some_of (cenv : ChainEnv) (h : String)
    (transfers : List TransferLog) (addr : String) (o i : TransferLog)
    (hout : (transfers.filter (fun t => t.fromAddr == addr)).head? = some o)
    (hin : (transfers.filter (fun t => t.toAddr == addr)).getLast? = some i) :
    parseSwapFromTransfers cenv h transfers addr =
      some { txHash := h
             blockNumber := cenv.receiptBlock h
             timestamp := cenv.blockTimestamp (cenv.receiptBlock h)
             tokenIn := i.tokenAddress
             tokenOut := o.tokenAddress
             amountIn := i.value
             amountOut := o.value } := by
  unfold parseSwapFromTransfers
  rw [hout, hin]

theorem parseSwap_none_of_noOut (cenv : ChainEnv) (h : String)
    (transfers : List TransferLog) (addr : String)
    (hout : (transfers.filter (fun t => t.fromAddr == addr)).head? = none) :
    parseSwapFromTransfers cenv h transfers addr = none := by
  unfold parseSwapFromTransfers
  rw [hout]

theorem parseSwap_none_of_noIn (cenv : ChainEnv) (h : String)
    (transfers : List TransferLog) (addr : String)
    (hin : (transfers.filter (fun t => t.toAddr == addr)).getLast? = none) :
    parseSwapFromTransfers cenv h transfers addr = none := by
  unfold parseSwapFromTransfers
  rw [hin]
  cases (transfers.filter (fun t => t.fromAddr == addr)).head? <;> rfl

theorem swapCandidate_txHash (cenv : ChainEnv) (addr : String)
    (all : List TransferLog) (k : String) (s : SwapEvent)
    (hc : swapCandidate cenv addr all k = some s) : s.txHash = k := by
  unfold swapCandidate at hc
  by_cases hlen : 2 ≤ (all.filter (fun t => t.txHash == k)).length
  · rw [if_pos hlen] at hc
    obtain ⟨o, i, -, -, rfl⟩ := parseSwap_some cenv k _ addr s hc
    rfl
  · rw [if_neg hlen] at hc
    cases hc

theorem countP_swaps (chain : List TransferLog) (cenv : ChainEnv)
    (addr : String) (fromB toB : Int) (h : String) :
    (getSwapEventsForAddress chain cenv addr fromB toB).countP
        (fun s => s.txHash == h) =
      if h ∈ txKeys (allTransfersFor chain cenv addr fromB toB) then
        (match swapCandidate cenv addr (allTransfersFor chain cenv addr fromB toB) h with
          | some _ => 1
          | none => 0)
      else 0 := by
  unfold getSwapEventsForAddress
  rw [countP_sortByBlock]
  exact countP_filterMap_keys _ (swapCandidate_txHash cenv addr _) h _
    (txKeys_nodup _)

/-! ### C4: correctness of the Swap Reconstructor -/

/-- C4.  For every scanned address, block range and transaction hash, writing
`g` for the transaction's grouped transfers: when `g` has at least two
transfers with both an outbound and an inbound one, the Reconstructor emits
exactly one candidate for that transaction, whose sent leg is the first
outbound transfer of the group and whose received leg is the last inbound
transfer; a one-sided group yields no candidate; and the three-log example
yields the single swap out=100 TokenX, in=40 TokenY. -/
theorem C4_swap_reconstruction :
    (∀ (chain : List TransferLog) (cenv : ChainEnv) (addr : String)
        (fromB toB : Int) (h : String),
      2 ≤ ((allTransfersFor chain cenv addr fromB toB).filter
          (fun t => t.txHash == h)).length →
      (∃ t ∈ (allTransfersFor chain cenv addr fromB toB).filter
          (fun t => t.txHash == h), t.fromAddr = addr) →
      (∃ t ∈ (allTransfersFor chain cenv addr fromB toB).filter
          (fun t => t.txHash == h), t.toAddr = addr) →
      (getSwapEventsForAddress chain cenv addr fromB toB).countP
          (fun s => s.txHash == h) = 1 ∧
      ∀ s ∈ getSwapEventsForAddress chain cenv addr fromB toB, s.txHash = h →
        ∃ o i,
          (((allTransfersFor chain cenv addr fromB toB).filter
              (fun t => t.txHash == h)).filter
            (fun t => t.fromAddr == addr)).head? = some o ∧
          (((allTransfersFor chain cenv addr fromB toB).filter
              (fun t => t.txHash == h)).filter
            (fun t => t.toAddr == addr)).getLast? = some i ∧
          s.tokenOut = o.tokenAddress ∧ s.amountOut = o.value ∧
          s.tokenIn = i.tokenAddress ∧ s.amountIn = i.value) ∧
    (∀ (chain : List TransferLog) (cenv : ChainEnv) (addr : String)
        (fromB toB : Int) (h : String),
      ((∀ t ∈ (allTransfersFor chain cenv addr fromB toB).filter
          (fun t => t.txHash == h), t.fromAddr ≠ addr) ∨
       (∀ t ∈ (allTransfersFor chain cenv addr fromB toB).filter
          (fun t => t.txHash == h), t.toAddr ≠ addr)) →
      (getSwapEventsForAddress chain cenv addr fromB toB).countP
          (fun s => s.txHash == h) = 0) ∧
    getSwapEventsForAddress chainC4 cenvC4 "A" 0 10 =
      [{ txHash := "0xt1", blockNumber := 5, timestamp := 99
         tokenIn := "Y", tokenOut := "X", amountIn := 40, amountOut := 100 }] := by
  refine ⟨?_, ?_, by rfl⟩
  · intro chain cenv addr fromB toB h hlen ⟨to', hto', htof⟩ ⟨ti, hti, htit⟩
    have hmemkeys : h ∈ txKeys (allTransfersFor chain cenv addr fromB toB) := by
      rw [mem_txKeys]
      refine ⟨to', List.mem_of_mem_filter hto', ?_⟩
      have := List.of_mem_filter hto'
      simpa using this
    have hout : ∃ o, (((allTransfersFor chain cenv addr fromB toB).filter
        (fun t => t.txHash == h)).filter (fun t => t.fromAddr == addr)).head? = some o := by
      have hm : to' ∈ ((allTransfersFor chain cenv addr fromB toB).filter
          (fun t => t.txHash == h)).filter (fun t => t.fromAddr == addr) :=
        List.mem_filter.mpr ⟨hto', by simp [htof]⟩
      cases hfl : ((allTransfersFor chain cenv addr fromB toB).filter
          (fun t => t.txHash == h)).filter (fun t => t.fromAddr == addr) with
      | nil => rw [hfl] at hm; cases hm
      | cons a as => exact ⟨a, rfl⟩
    have hin : ∃ i, (((allTransfersFor chain cenv addr fromB toB).filter
        (fun t => t.txHash == h)).filter (fun t => t.toAddr == addr)).getLast? = some i := by
      have hm : ti ∈ ((allTransfersFor chain cenv addr fromB toB).filter
          (fun t => t.txHash == h)).filter (fun t => t.toAddr == addr) :=
        List.mem_filter.mpr ⟨hti, by simp [htit]⟩
      have hne : ((allTransfersFor chain cenv addr fromB toB).filter
          (fun t => t.txHash == h)).filter (fun t => t.toAddr == addr) ≠ [] :=
        List.ne_nil_of_mem hm
      obtain ⟨i, hi⟩ := Option.isSome_iff_exists.mp (List.getLast?_isSome.mpr hne)
      exact ⟨i, hi⟩
    obtain ⟨o, ho⟩ := hout
    obtain ⟨i, hi⟩ := hin
    have hcand : swapCandidate cenv addr (allTransfersFor chain cenv addr fromB toB) h =
        some { txHash := h
               blockNumber := cenv.receiptBlock h
               timestamp := cenv.blockTimestamp (cenv.receiptBlock h)
               tokenIn := i.tokenAddress
               tokenOut := o.tokenAddress
               amountIn := i.value
               amountOut := o.value } := by
      unfold swapCandidate
      rw [if_pos hlen]
      exact parseSwap_some_of cenv h _ addr o i ho hi
    constructor
    · rw [countP_swaps, if_pos hmemkeys, hcand]
    · intro s hs hsh
      rw [getSwapEventsForAddress, mem_sortByBlock] at hs
      obtain ⟨k, hk, hks⟩ := List.mem_filterMap.mp hs
      have hkh : k = h := by
        rw [← swapCandidate_txHash cenv addr _ k s hks, hsh]
      subst hkh
      rw [hcand] at hks
      injection hks with hks
      subst hks
      exact ⟨o, i, ho, hi, rfl, rfl, rfl, rfl⟩
  · intro chain cenv addr fromB toB h hside
    rw [countP_swaps]
    have hcand : swapCandidate cenv addr (allTransfersFor chain cenv addr fromB toB) h = none := by
      unfold swapCandidate
      by_cases hlen : 2 ≤ ((allTransfersFor chain cenv addr fromB toB).filter
          (fun t => t.txHash == h)).length
      · rw [if_pos hlen]
        rcases hside with hno | hno
        · apply parseSwap_none_of_noOut
          rw [List.head?_eq_none_iff]
          apply List.filter_eq_nil_iff.mpr
          intro t ht
          simpa using hno t ht
        · apply parseSwap_none_of_noIn
          rw [List.getLast?_eq_none_iff]
          apply List.filter_eq_nil_iff.mpr
          intro t ht
          simpa using hno t ht
      · rw [if_neg hlen]
    rw [hcand]
    by_cases hmem : h ∈ txKeys (allTransfersFor chain cenv addr fromB toB) <;>
      simp [hmem]

/-- C4, witness at the three-log example: exactly one candidate for the
transaction, with the first outbound transfer as the sent leg and the last
inbound transfer as the received leg. -/
theorem C4_swap_reconstruction_witness :
    (getSwapEventsForAddress chainC4 cenvC4 "A" 0 10).countP
        (fun s => s.txHash == "0xt1") = 1 ∧
    (getSwapEventsForAddress chainC4 cenvC4 "A" 0 10).countP
        (fun s => s.txHash == "0xmissing") = 0 := by
  constructor
  · exact (C4_swap_reconstruction.1 chainC4 cenvC4 "A" 0 10 "0xt1"
      (by decide)
      ⟨{ txHash := "0xt1", fromAddr := "A", toAddr := "C", tokenAddress := "X", value := 100 },
        by decide, by decide⟩
      ⟨{ txHash := "0xt1", fromAddr := "P", toAddr := "A", tokenAddress := "Y", value := 40 },
        by decide, by decide⟩).1
  · exact C4_swap_reconstruction.2.1 chainC4 cenvC4 "A" 0 10 "0xmissing"
      (Or.inl (by decide))

/-! ### C5: watermark monotonicity of the sweep -/

theorem swap_mem_range (chain : List TransferLog) (cenv : ChainEnv)
    (addr : String) (fromB toB : Int) (s : SwapEvent)
    (hs : s ∈ getSwapEventsForAddress chain cenv addr fromB toB) :
    fromB ≤ s.blockNumber ∧ s.blockNumber ≤ toB := by
  rw [getSwapEventsForAddress, mem_sortByBlock] at hs
  obtain ⟨k, hk, hks⟩ := List.mem_filterMap.mp hs
  unfold swapCandidate at hks
  by_cases hlen : 2 ≤ ((allTransfersFor chain cenv addr fromB toB).filter
      (fun t => t.txHash == k)).length
  · rw [if_pos hlen] at hks
    have hpos : 0 < ((allTransfersFor chain cenv addr fromB toB).filter
        (fun t => t.txHash == k)).length := by omega
    obtain ⟨t, ht⟩ := List.exists_mem_of_length_pos hpos
    have htk : t.txHash = k := by simpa using List.of_mem_filter ht
    have htall : t ∈ allTransfersFor chain cenv addr fromB toB :=
      List.mem_of_mem_filter ht
    have hrange : logInRange cenv fromB toB t = true := by
      unfold allTransfersFor at htall
      rcases List.mem_append.mp htall with hm | hm
      · unfold getLogsFrom at hm
        have hp := List.of_mem_filter hm
        exact ((Bool.and_eq_true _ _).mp hp).2
      · unfold getLogsTo at hm
        have hp := List.of_mem_filter hm
        exact ((Bool.and_eq_true _ _).mp hp).2
    have hb : fromB ≤ cenv.receiptBlock t.txHash ∧
        cenv.receiptBlock t.txHash ≤ toB := by
      unfold logInRange at hrange
      simpa using hrange
    obtain ⟨o, i, -, -, rfl⟩ := parseSwap_some cenv k _ addr s hks
    show fromB ≤ cenv.receiptBlock k ∧ cenv.receiptBlock k ≤ toB
    rw [← htk]
    exact hb
  · rw [if_neg hlen] at hks
    cases hks

theorem maxBlockAux_append (l1 l2 : List Int) :
    maxBlockAux (l1 ++ l2) = combineMax (maxBlockAux l1) (maxBlockAux l2) := by
  induction l1 with
  | nil => rfl
  | cons x xs ih =>
    show maxBlockAux (x :: (xs ++ l2)) = combineMax (maxBlockAux (x :: xs)) _
    rw [maxBlockAux, ih, maxBlockAux]
    cases hxs : maxBlockAux xs <;> cases hl2 : maxBlockAux l2 <;>
      simp [combineMax, max_assoc]

theorem maxBlockAux_eq_none (l : List Int) (h : maxBlockAux l = none) :
    l = [] := by
  cases l with
  | nil => rfl
  | cons x xs =>
    rw [maxBlockAux] at h
    cases hxs : maxBlockAux xs <;> rw [hxs] at h <;> cases h

theorem maxBlockAux_mem (l : List Int) (m : Int) (h : maxBlockAux l = some m) :
    m ∈ l := by
  induction l generalizing m with
  | nil => cases h
  | cons x xs ih =>
    rw [maxBlockAux] at h
    cases hxs : maxBlockAux xs with
    | none =>
      rw [hxs] at h
      injection h with h
      subst h
      exact List.mem_cons_self _ _
    | some m' =>
      rw [hxs] at h
      injection h with h
      subst h
      rcases max_choice x m' with hc | hc
      · rw [hc]; exact List.mem_cons_self _ _
      · rw [hc]; exact List.mem_cons_of_mem _ (ih m' hxs)

theorem le_maxBlockAux (l : List Int) (x m : Int) (hx : x ∈ l)
    (hm : maxBlockAux l = some m) : x ≤ m := by
  induction l generalizing m with
  | nil => cases hx
  | cons y ys ih =>
    rw [maxBlockAux] at hm
    cases hys : maxBlockAux ys with
    | none =>
      rw [hys] at hm
      injection hm with hm
      subst hm
      rcases List.mem_cons.mp hx with rfl | hx'
      · exact le_refl x
      · rw [maxBlockAux_eq_none ys hys] at hx'
        cases hx'
    | some m' =>
      rw [hys] at hm
      injection hm with hm
      subst hm
      rcases List.mem_cons.mp hx with rfl | hx'
      · exact le_max_left _ _
      · exact le_trans (ih m' hx' hys) (le_max_right _ _)

theorem lastTradeBlock_append (db ext : List TradeRow) (a : String) :
    lastTradeBlock (db ++ ext) a =
      combineMax (lastTradeBlock db a) (lastTradeBlock ext a) := by
  unfold lastTradeBlock
  rw [List.filter_append, List.map_append, maxBlockAux_append]

/-- C5, amended.  A sweep never lowers the derived watermark: the watermark
after is at least the watermark before, no persisted row is removed, and
every newly inserted row's block number is at least `watermark + 1` when the
agent already had trades — and at least the lookback block
`currentBlock − 10000` itself (not the lookback plus one) when it had none. -/
theorem C5_watermark_monotone_amended (env : IndexEnv) (cenv : ChainEnv)
    (chain : List TransferLog) (db : List TradeRow) (a wallet : String)
    (cb : Int) (db' : List TradeRow) (n : Nat)
    (h1 : runSweep env cenv chain db a wallet cb = .ok (db', n)) :
    derivedWatermark db a cb ≤ derivedWatermark db' a cb ∧
    (∀ r ∈ db, r ∈ db') ∧
    (∀ r' ∈ db', r' ∉ db →
      (∀ b, lastTradeBlock db a = some b → b + 1 ≤ r'.blockNumber) ∧
      (lastTradeBlock db a = none → cb - 10000 ≤ r'.blockNumber)) := by
  unfold runSweep indexAgentTrades at h1
  obtain ⟨ext, hdb, hprops⟩ := indexSwaps_ok_decomp env a _ db 0 n db' h1
  have hextblock : ∀ r' ∈ ext, sweepFromBlock db a cb ≤ r'.blockNumber := by
    intro r' hr'
    obtain ⟨⟨s, hs, iIn, iOut, -, -, rfl⟩, -⟩ := hprops r' hr'
    have hrange := swap_mem_range chain cenv wallet (sweepFromBlock db a cb) cb s hs
    have hbn : (mkTradeRow env a s iIn iOut).blockNumber = s.blockNumber := rfl
    rw [hbn]
    exact hrange.1
  refine ⟨?_, ?_, ?_⟩
  · unfold derivedWatermark
    rw [hdb, lastTradeBlock_append]
    cases hdbm : lastTradeBlock db a with
    | some b =>
      cases hext : lastTradeBlock ext a with
      | none => simp [combineMax]
      | some m => simp [combineMax, le_max_left]
    | none =>
      cases hext : lastTradeBlock ext a with
      | none => simp [combineMax]
      | some m =>
        simp only [combineMax, Option.getD_some, Option.getD_none]
        have hmm := maxBlockAux_mem _ m hext
        rw [List.mem_map] at hmm
        obtain ⟨r', hr', hrb⟩ := hmm
        have hr'ext : r' ∈ ext := List.mem_of_mem_filter hr'
        have := hextblock r' hr'ext
        rw [hrb] at this
        unfold sweepFromBlock at this
        rw [hdbm] at this
        exact this
  · intro r hr
    rw [hdb]
    exact List.mem_append_left _ hr
  · intro r' hr' hnotdb
    have hr'ext : r' ∈ ext := by
      rw [hdb] at hr'
      rcases List.mem_append.mp hr' with h' | h'
      · exact absurd h' hnotdb
      · exact h'
    have hb := hextblock r' hr'ext
    constructor
    · intro b hbm
      unfold sweepFromBlock at hb
      rw [hbm] at hb
      exact hb
    · intro hbm
      unfold sweepFromBlock at hb
      rw [hbm] at hb
      exact hb

/-- C5, counterexample.  First sweep of an agent with no persisted trades at
current block 20000: the derived watermark before the sweep is the lookback
20000 − 10000 = 10000, and the sweep inserts a trade at block 10000 exactly —
not at or above watermark + 1 as the claim states (the `getLogs` range is
inclusive at `currentBlock - 10000`). -/
theorem C5_counterexample :
    derivedWatermark [] "agent1" 20000 = 10000 ∧
    runSweep envC5 cenvC5 chainC5 [] "agent1" "A" 20000 = .ok ([rowC5], 1) ∧
    rowC5.blockNumber = 10000 ∧
    ¬ (derivedWatermark [] "agent1" 20000 + 1 ≤ rowC5.blockNumber) := by
  exact ⟨rfl, rfl, rfl, by decide⟩

/-- C5, witness for the amended theorem at the concrete sweep. -/
theorem C5_watermark_monotone_amended_witness :
    derivedWatermark [] "agent1" 20000 ≤ derivedWatermark [rowC5] "agent1" 20000 ∧
    (lastTradeBlock [] "agent1" = none → (20000 : Int) - 10000 ≤ rowC5.blockNumber) := by
  have h := C5_watermark_monotone_amended envC5 cenvC5 chainC5 [] "agent1" "A"
    20000 [rowC5] 1 rfl
  exact ⟨h.1, (h.2.2 rowC5 (by simp) (by simp)).2⟩

end Clawtrade
